import Mathlib

/-
Verification of the drug-name recognition and resolution engine in
src/drug_db.py of health-information-harmonizer.

The Python code is shallowly embedded: Python strings are Lean `String`
(lists of Unicode code points); `str.strip`, `str.lower`, `str.upper` are
modelled character-wise for the ASCII range (Python's full Unicode case
mapping agrees with this on the ASCII + CJK character sets the program
handles); the regex `(?<!\w)NAME(?!\w)` with `re.IGNORECASE` built by
`_build_word_boundary_pattern` is modelled by an explicit positional
scan, where `\w` covers ASCII letters, digits, the underscore, and the
CJK Unified Ideographs block U+4E00..U+9FFF (in Python's `re`, CJK
ideographs are word characters).  Record identity (`id(entry)`) is
modelled by the record's position in the store, and the store
(`OTC_DB`, loaded from a data file that is not part of the sources) is
an arbitrary `List DrugRec` parameter.
-/

-- ---------------------------------------------------------------------------
-- Character-level primitives
-- ---------------------------------------------------------------------------

/-- `Char.ofNat n` has code point `n` whenever `n` is below the surrogate
range; used to reason about case conversion arithmetic. -/
theorem char_toNat_ofNat_small (n : Nat) (h : n < 55296) : (Char.ofNat n).toNat = n := by
  unfold Char.ofNat
  rw [dif_pos (Or.inl h)]
  rfl

/-- Python `str.lower`, character-wise, on the ASCII range (A-Z ↦ a-z). -/
def pyToLower (c : Char) : Char :=
  if 65 ≤ c.toNat ∧ c.toNat ≤ 90 then Char.ofNat (c.toNat + 32) else c

/-- Python `str.upper`, character-wise, on the ASCII range (a-z ↦ A-Z). -/
def pyToUpper (c : Char) : Char :=
  if 97 ≤ c.toNat ∧ c.toNat ≤ 122 then Char.ofNat (c.toNat - 32) else c

/-- Whitespace as stripped by Python `str.strip()`:
space, tab, newline, carriage return, vertical tab, form feed. -/
def isSpaceChar (c : Char) : Bool :=
  decide (c.toNat = 32 ∨ c.toNat = 9 ∨ c.toNat = 10 ∨ c.toNat = 13 ∨
    c.toNat = 11 ∨ c.toNat = 12)

/-- Python regex `\w` on the character sets handled by the program:
ASCII letters, digits, underscore, and the CJK Unified Ideographs block
U+4E00..U+9FFF (19968..40959). -/
def isWordChar (c : Char) : Bool :=
  decide ((97 ≤ c.toNat ∧ c.toNat ≤ 122) ∨ (65 ≤ c.toNat ∧ c.toNat ≤ 90) ∨
    (48 ≤ c.toNat ∧ c.toNat ≤ 57) ∨ c.toNat = 95 ∨
    (19968 ≤ c.toNat ∧ c.toNat ≤ 40959))

/-- Case-insensitive character comparison, as `re.IGNORECASE` performs it. -/
def charEqCI (a b : Char) : Bool :=
  pyToLower a == pyToLower b

theorem pyToLower_toNat (c : Char) :
    (pyToLower c).toNat =
      if 65 ≤ c.toNat ∧ c.toNat ≤ 90 then c.toNat + 32 else c.toNat := by
  unfold pyToLower
  split
  · next h => exact char_toNat_ofNat_small _ (by omega)
  · rfl

theorem pyToLower_idem (c : Char) : pyToLower (pyToLower c) = pyToLower c := by
  by_cases h : 65 ≤ c.toNat ∧ c.toNat ≤ 90
  · have h2 : (pyToLower c).toNat = c.toNat + 32 := by
      rw [pyToLower_toNat, if_pos h]
    rw [pyToLower]
    rw [if_neg (by omega)]
  · have h1 : pyToLower c = c := by
      unfold pyToLower; exact if_neg h
    rw [h1]
    exact h1

theorem isSpaceChar_pyToLower (c : Char) :
    isSpaceChar (pyToLower c) = isSpaceChar c := by
  unfold isSpaceChar
  rw [decide_eq_decide, pyToLower_toNat]
  by_cases h : 65 ≤ c.toNat ∧ c.toNat ≤ 90
  · rw [if_pos h]; omega
  · rw [if_neg h]

-- ---------------------------------------------------------------------------
-- String-level primitives (Python strings as lists of characters)
-- ---------------------------------------------------------------------------

/-- Python `str.lower` over a whole string. -/
def pyLower (s : List Char) : List Char := s.map pyToLower

/-- Python `str.upper` over a whole string. -/
def pyUpper (s : List Char) : List Char := s.map pyToUpper

/-- Python `str.strip()`: remove leading and trailing whitespace. -/
def pyStrip (s : List Char) : List Char :=
  ((s.dropWhile isSpaceChar).reverse.dropWhile isSpaceChar).reverse

def pyLowerS (s : String) : String := ⟨pyLower s.data⟩

def pyUpperS (s : String) : String := ⟨pyUpper s.data⟩

def pyStripS (s : String) : String := ⟨pyStrip s.data⟩

/-- Case-insensitive equality of equal-length character lists. -/
def strEqCI : List Char → List Char → Bool
  | [], [] => true
  | a :: as, b :: bs => charEqCI a b && strEqCI as bs
  | _, _ => false

/-- Python `needle in hay` (substring containment). -/
def containsSub (hay needle : List Char) : Bool :=
  (List.range (hay.length + 1)).any (fun i => needle.isPrefixOf (hay.drop i))

-- ---------------------------------------------------------------------------
-- Data model: drug records and groups
-- ---------------------------------------------------------------------------

/-- One OTC_DB entry, restricted to the fields the engine reads.  Missing
fields (`dict.get` returning a falsy value) are modelled as `""`/`[]`;
non-string aliases are skipped by the code wherever aliases are read, so
`aliases` carries the string entries only. -/
structure DrugRec where
  base_name : String
  generic_name : String
  aliases : List String
deriving DecidableEq

/-- One output dict of `group_by_base`. -/
structure DrugGroup where
  base_name : String
  generic_name : String
  aliases : List String
  preps : List DrugRec
deriving DecidableEq

-- ---------------------------------------------------------------------------
-- _normalize_name (src/drug_db.py lines 37-52)
-- ---------------------------------------------------------------------------

/-- The `mapping` dict inside `_normalize_name`, as a lookup function. -/
def mappingFind (n : String) : Option String :=
  if n = "维C" then some "vitamin c"
  else if n = "维生素C" then some "vitamin c"
  else if n = "维他命C" then some "vitamin c"
  else if n = "布洛芬" then some "ibuprofen"
  else if n = "对乙酰氨基酚" then some "acetaminophen"
  else if n = "阿司匹林" then some "aspirin"
  else none

/-- `_normalize_name`: empty in, empty out; otherwise strip, lower, then
look the lowered form up in the mapping, defaulting to the lowered form. -/
def normalize_name (name : String) : String :=
  if name = "" then ""
  else (mappingFind (pyLowerS (pyStripS name))).getD (pyLowerS (pyStripS name))

-- ---------------------------------------------------------------------------
-- _build_name_index (src/drug_db.py lines 55-96)
-- ---------------------------------------------------------------------------

/-- Order-preserving de-duplication (the `seen` set loop in
`_build_name_index`). -/
def dedupKeep : List String → List String → List String
  | [], _ => []
  | n :: rest, seen =>
    if seen.contains n then dedupKeep rest seen
    else n :: dedupKeep rest (n :: seen)

/-- The name variants one entry contributes, in source order:
generic name (if non-empty), base name (if non-empty and distinct),
then each normalized non-empty alias. -/
def entryNames (e : DrugRec) : List String :=
  let generic := normalize_name e.generic_name
  let base := normalize_name e.base_name
  (if generic = "" then [] else [generic]) ++
    (if base = "" ∨ base = generic then [] else [base]) ++
    ((e.aliases.map normalize_name).filter (fun n => n != ""))

/-- `_build_name_index`: one `(normalized_name, entry)` pair per unique
variant, with the entry represented by its position in the store. -/
def build_name_index (db : List DrugRec) : List (String × Nat) :=
  (db.enum.map (fun p => (dedupKeep (entryNames p.2) []).map (fun n => (n, p.1)))).flatten

-- ---------------------------------------------------------------------------
-- _build_word_boundary_pattern / _match_single_name_in_text
-- (src/drug_db.py lines 106-130)
-- ---------------------------------------------------------------------------

/-- The name occurs at position `i` of the text, compared
case-insensitively (the regex body is the escaped literal name under
`re.IGNORECASE`). -/
def occursAtCI (name text : List Char) (i : Nat) : Bool :=
  strEqCI ((text.drop i).take name.length) name

/-- The lookaround conditions of the pattern
`(?<!\w)NAME(?!\w)` at position `i` for a name of length `len`:
the character before `i` (when it exists) and the character at
`i + len` (when it exists) are not word characters. -/
def boundaryOk (text : List Char) (i len : Nat) : Bool :=
  (i == 0 || (text.get? (i - 1)).all (fun c => !isWordChar c)) &&
  (text.get? (i + len)).all (fun c => !isWordChar c)

/-- `pattern.search(text)`: some position of the text starts a
case-insensitive occurrence of the name satisfying both lookarounds. -/
def regexSearch (name text : List Char) : Bool :=
  (List.range (text.length + 1)).any
    (fun i => occursAtCI name text i && boundaryOk text i name.length)

/-- `_match_single_name_in_text`: names shorter than two characters never
match; otherwise the word-boundary pattern is searched in the text. -/
def match_single_name_in_text (text name : String) : Bool :=
  if name.length < 2 then false
  else regexSearch name.data text.data

-- ---------------------------------------------------------------------------
-- find_drugs_in_text_raw (src/drug_db.py lines 137-157)
-- ---------------------------------------------------------------------------

/-- The scan loop of `find_drugs_in_text_raw`: walk the index, skip
entries already matched (`id(entry) in seen_ids`), and record each newly
matching entry. -/
def matchLoop (text : String) : List (String × Nat) → List Nat → List Nat
  | [], _ => []
  | (name, eid) :: rest, seen =>
    if seen.contains eid then matchLoop text rest seen
    else if match_single_name_in_text text name then
      eid :: matchLoop text rest (eid :: seen)
    else matchLoop text rest seen

/-- `find_drugs_in_text_raw`, returning the identities (store positions)
of the matched entries in match order.  Empty or whitespace-only text is
the fast path returning nothing. -/
def find_drugs_in_text_raw (idx : List (String × Nat)) (text : String) : List Nat :=
  if pyStrip text.data = [] then [] else matchLoop text idx []

-- ---------------------------------------------------------------------------
-- group_by_base (src/drug_db.py lines 160-209)
-- ---------------------------------------------------------------------------

/-- Python `set.add` on an insertion-ordered list model. -/
def addAlias (l : List String) (a : String) : List String :=
  if l.contains a then l else l ++ [a]

/-- Collect one preparation's aliases plus its own generic name into the
group's alias set. -/
def addPrepAliases (l : List String) (prep : DrugRec) : List String :=
  addAlias (prep.aliases.foldl addAlias l) prep.generic_name

/-- Append a preparation to a group and merge its aliases. -/
def updateGroup (g : DrugGroup) (prep : DrugRec) : DrugGroup :=
  DrugGroup.mk g.base_name g.generic_name (addPrepAliases g.aliases prep) (g.preps ++ [prep])

/-- `prep.get("base_name") or prep.get("generic_name") or ""`. -/
def baseOf (prep : DrugRec) : String :=
  if prep.base_name = "" then
    (if prep.generic_name = "" then "" else prep.generic_name)
  else prep.base_name

/-- The fresh group dict created when a grouping key is first seen. -/
def newGroup (base : String) (prep : DrugRec) : DrugGroup :=
  DrugGroup.mk base (if prep.generic_name = "" then base else prep.generic_name) [] []

/-- Insertion-ordered dict update: find the key, update its group, or
append a fresh group at the end. -/
def insertIntoGroups : List (String × DrugGroup) → String → String → DrugRec → List (String × DrugGroup)
  | [], key, base, prep => [(key, updateGroup (newGroup base prep) prep)]
  | (k, g) :: rest, key, base, prep =>
    if k = key then (k, updateGroup g prep) :: rest
    else (k, g) :: insertIntoGroups rest key base prep

/-- One iteration of the grouping loop body. -/
def insertPrep (groups : List (String × DrugGroup)) (prep : DrugRec) : List (String × DrugGroup) :=
  let base := baseOf prep
  insertIntoGroups groups (normalize_name base) base prep

/-- Python string `<=` (code-point lexicographic), Bool-valued. -/
def strLeB (a b : String) : Bool := decide (a ≤ b)

/-- `sorted(list(g["aliases"]))`. -/
def finalizeGroup (g : DrugGroup) : DrugGroup :=
  DrugGroup.mk g.base_name g.generic_name (g.aliases.mergeSort strLeB) g.preps

/-- `group_by_base`: fold the preparations into insertion-ordered groups,
finalize the alias sets, and sort the groups by `base_name`. -/
def group_by_base (preps : List DrugRec) : List DrugGroup :=
  ((preps.foldl insertPrep []).map (fun kg => finalizeGroup kg.2)).mergeSort
    (fun g1 g2 => strLeB g1.base_name g2.base_name)

/-- `find_drugs_in_text`: raw matches (as identities resolved back to
records) grouped by base name. -/
def find_drugs_in_text (db : List DrugRec) (text : String) : List DrugGroup :=
  group_by_base ((find_drugs_in_text_raw (build_name_index db) text).filterMap
    (fun i => db.get? i))

-- ---------------------------------------------------------------------------
-- find_by_generic_name (src/drug_db.py lines 250-279)
-- ---------------------------------------------------------------------------

/-- The `SYNONYMS` dict inside `find_by_generic_name`. -/
def synonymsFind (s : String) : Option String :=
  if s = "维C" then some "VITAMIN C"
  else if s = "维生素C" then some "VITAMIN C"
  else if s = "维他命C" then some "VITAMIN C"
  else if s = "ASCORBIC ACID" then some "VITAMIN C"
  else if s = "布洛芬" then some "IBUPROFEN"
  else if s = "对乙酰氨基酚" then some "ACETAMINOPHEN"
  else if s = "阿司匹林" then some "ASPIRIN"
  else none

/-- `SYNONYMS.get(raw_name, SYNONYMS.get(raw_name.upper(), raw_name.upper()))`
for `raw_name = name.strip()`. -/
def searchKeyOf (name : String) : String :=
  let raw := pyStripS name
  match synonymsFind raw with
  | some v => v
  | none =>
    match synonymsFind (pyUpperS raw) with
    | some v => v
    | none => pyUpperS raw

/-- The scan loop of `find_by_generic_name`: first record whose upper-cased
generic name equals the key, or whose upper-cased aliases contain the key,
or whose upper-cased base name contains the key as a substring. -/
def findLoop (key : String) : List DrugRec → Option DrugRec
  | [] => none
  | drug :: rest =>
    if key = pyUpperS drug.generic_name then some drug
    else if (drug.aliases.map pyUpperS).contains key then some drug
    else if containsSub (pyUpperS drug.base_name).data key.data then some drug
    else findLoop key rest

/-- `find_by_generic_name` over an explicit store. -/
def find_by_generic_name (db : List DrugRec) (name : String) : Option DrugRec :=
  if name = "" then none
  else findLoop (searchKeyOf name) db

-- ---------------------------------------------------------------------------
-- Spec-side resolver (for the refinement comparison of the Exact Resolver)
-- ---------------------------------------------------------------------------

/-- One record's matching criterion from the spec's words: its upper-cased
generic name equals the search key, or its upper-cased aliases contain the
search key, or its upper-cased base name contains the search key as a
substring. -/
def resolveMatches (key : String) (drug : DrugRec) : Bool :=
  (key == pyUpperS drug.generic_name) ||
  ((drug.aliases.map pyUpperS).contains key) ||
  (containsSub (pyUpperS drug.base_name).data key.data)

/-- The spec's description of resolution for a non-empty input: apply the
synonym table (raw trimmed form, then upper-cased form, defaulting to the
upper-cased trimmed input) and return the first record of the store
satisfying the matching criterion, or nothing. -/
def resolveSpec (db : List DrugRec) (name : String) : Option DrugRec :=
  db.find? (resolveMatches (searchKeyOf name))

-- ---------------------------------------------------------------------------
-- Concrete records used as test inputs
-- ---------------------------------------------------------------------------

/-- The ibuprofen record of the spec's §8 scenario. -/
def rIbuprofen : DrugRec := DrugRec.mk "IBUPROFEN" "IBUPROFEN" ["ADVIL", "布洛芬"]

/-- A record with empty base and generic names. -/
def recBothEmpty : DrugRec := DrugRec.mk "" "" []

-- ---------------------------------------------------------------------------
-- Supporting lemmas
-- ---------------------------------------------------------------------------

theorem matchLoop_eq_nil (text : String) (idx : List (String × Nat))
    (h : ∀ p ∈ idx, match_single_name_in_text text p.1 = false) :
    ∀ seen, matchLoop text idx seen = [] := by
  induction idx with
  | nil => intro seen; rfl
  | cons p rest ih =>
    intro seen
    obtain ⟨name, eid⟩ := p
    have hp : match_single_name_in_text text name = false := h (name, eid) (by simp)
    have hrest : ∀ q ∈ rest, match_single_name_in_text text q.1 = false :=
      fun q hq => h q (List.mem_cons_of_mem _ hq)
    by_cases hc : seen.contains eid = true
    · simp only [matchLoop, if_pos hc]
      exact ih hrest seen
    · simp only [matchLoop, if_neg hc, hp, if_neg (Bool.false_ne_true)]
      exact ih hrest seen

theorem matchLoop_nodup_fresh (text : String) (idx : List (String × Nat)) :
    ∀ seen : List Nat, (matchLoop text idx seen).Nodup ∧
      ∀ e ∈ matchLoop text idx seen, ¬ seen.contains e = true := by
  induction idx with
  | nil => intro seen; exact ⟨List.nodup_nil, by intro e he; cases he⟩
  | cons p rest ih =>
    intro seen
    obtain ⟨name, eid⟩ := p
    by_cases hc : seen.contains eid = true
    · simp only [matchLoop, if_pos hc]
      exact ih seen
    · by_cases hm : match_single_name_in_text text name = true
      · simp only [matchLoop, if_neg hc, hm, if_pos rfl]
        obtain ⟨hnd, hfresh⟩ := ih (eid :: seen)
        constructor
        · refine List.nodup_cons.mpr ⟨?_, hnd⟩
          intro hmem
          exact hfresh eid hmem (by simp)
        · intro e he
          rcases List.mem_cons.mp he with rfl | he'
          · exact hc
          · intro hcon
            apply hfresh e he'
            have hmem : e ∈ seen := by simpa using hcon
            simp [hmem]
      · have hm' : match_single_name_in_text text name = false :=
          Bool.eq_false_iff.mpr hm
        simp only [matchLoop, if_neg hc, hm', if_neg (Bool.false_ne_true)]
        exact ih seen

-- ---------------------------------------------------------------------------
-- Claims C1, C2, C3: code bugs, evaluated at their failing inputs
-- ---------------------------------------------------------------------------

/-- Claim C1: a logographic key of length at least two should match whenever
it occurs as a substring, including embedded in a longer run of logographic
characters.  The code refutes this: the key 布洛芬 occurs at position 0 of
布洛芬缓释片, yet the matcher reports no match, because Python's regex
treats CJK ideographs as word characters, so the trailing lookaround
fails.  This contradicts the matcher's own docstring. -/
theorem c1_embedded_logographic_key_not_matched :
    occursAtCI "布洛芬".data "布洛芬缓释片".data 0 = true ∧
    match_single_name_in_text "布洛芬缓释片" "布洛芬" = false := by decide

/-- Claim C2: the resolver should return nothing for empty and
whitespace-only input.  The empty string is indeed rejected, but a
whitespace-only input strips down to an empty search key, and the Python
substring test accepts the empty string as a substring of every base
name, so the first record of the store is returned. -/
theorem c2_whitespace_input_returns_first_record :
    find_by_generic_name [rIbuprofen] "" = none ∧
    find_by_generic_name [rIbuprofen] "   " = some rIbuprofen := by decide

/-- Claim C3: for CJK-containing input the normalizer should return the
trimmed original unless the synonym table applies, and 维C should map to
the ascorbic-acid target.  The code refutes this: it lower-cases before
the table lookup, so 维C becomes the case-mangled 维c, which misses the
table's key 维C — the mapping entries containing an upper-case C are
unreachable. -/
theorem c3_normalize_mangles_case_and_misses_synonym :
    normalize_name "维C" = "维c" ∧
    pyStripS "维C" = "维C" ∧
    normalize_name "维C" ≠ "vitamin c" := by decide

-- ---------------------------------------------------------------------------
-- Claim C6: keys shorter than two characters never match
-- ---------------------------------------------------------------------------

/-- Claim C6: an index key shorter than two characters never matches any
text, and an index consisting only of such keys contributes nothing to
`find_drugs_in_text_raw`. -/
theorem c6_short_keys_never_match (text : String) (idx : List (String × Nat))
    (h : ∀ p ∈ idx, p.1.length < 2) :
    (∀ p ∈ idx, match_single_name_in_text text p.1 = false) ∧
    find_drugs_in_text_raw idx text = [] := by
  have hall : ∀ p ∈ idx, match_single_name_in_text text p.1 = false := by
    intro p hp
    unfold match_single_name_in_text
    exact if_pos (h p hp)
  refine ⟨hall, ?_⟩
  unfold find_drugs_in_text_raw
  by_cases hs : pyStrip text.data = []
  · rw [if_pos hs]
  · rw [if_neg hs]
    exact matchLoop_eq_nil text idx hall []

/-- Witness for C6 at a concrete single-character index key. -/
theorem c6_short_keys_witness :
    (∀ p ∈ [(("a" : String), (0 : Nat))],
      match_single_name_in_text "aa" p.1 = false) ∧
    find_drugs_in_text_raw [("a", 0)] "aa" = [] :=
  c6_short_keys_never_match "aa" [("a", 0)] (by decide)

-- ---------------------------------------------------------------------------
-- Claim C7: raw matches carry no duplicate record identity
-- ---------------------------------------------------------------------------

/-- Claim C7: for every text and every index, the record identities
returned by `find_drugs_in_text_raw` contain no duplicate: once a record
has matched via one variant key it is never added again, the comparison
being by record identity (store position), not by field values. -/
theorem c7_raw_matches_nodup (idx : List (String × Nat)) (text : String) :
    (find_drugs_in_text_raw idx text).Nodup := by
  unfold find_drugs_in_text_raw
  by_cases hs : pyStrip text.data = []
  · rw [if_pos hs]; exact List.nodup_nil
  · rw [if_neg hs]
    exact (matchLoop_nodup_fresh text idx []).1

-- ---------------------------------------------------------------------------
-- Claim C4: grouping of records with empty names
-- ---------------------------------------------------------------------------

theorem mem_insertIntoGroups_preserved (groups : List (String × DrugGroup))
    (key base : String) (prep r : DrugRec) (h : ∃ p ∈ groups, r ∈ p.2.preps) :
    ∃ p ∈ insertIntoGroups groups key base prep, r ∈ p.2.preps := by
  induction groups with
  | nil => obtain ⟨p, hp, _⟩ := h; cases hp
  | cons kg rest ih =>
    obtain ⟨k, g⟩ := kg
    obtain ⟨p, hp, hr⟩ := h
    by_cases hk : k = key
    · simp only [insertIntoGroups, if_pos hk]
      rcases List.mem_cons.mp hp with rfl | hp'
      · refine ⟨(k, updateGroup g prep), by simp, ?_⟩
        simp only [updateGroup, List.mem_append]
        exact Or.inl hr
      · exact ⟨p, List.mem_cons_of_mem _ hp', hr⟩
    · simp only [insertIntoGroups, if_neg hk]
      rcases List.mem_cons.mp hp with rfl | hp'
      · exact ⟨(k, g), List.mem_cons_self _ _, hr⟩
      · obtain ⟨q, hq, hrq⟩ := ih ⟨p, hp', hr⟩
        exact ⟨q, List.mem_cons_of_mem _ hq, hrq⟩

theorem mem_insertIntoGroups_new (groups : List (String × DrugGroup))
    (key base : String) (prep : DrugRec) :
    ∃ p ∈ insertIntoGroups groups key base prep, prep ∈ p.2.preps := by
  induction groups with
  | nil =>
    refine ⟨(key, updateGroup (newGroup base prep) prep), by simp [insertIntoGroups], ?_⟩
    simp [updateGroup]
  | cons kg rest ih =>
    obtain ⟨k, g⟩ := kg
    by_cases hk : k = key
    · refine ⟨(k, updateGroup g prep), by simp [insertIntoGroups, if_pos hk], ?_⟩
      simp [updateGroup]
    · obtain ⟨q, hq, hr⟩ := ih
      exact ⟨q, by simp only [insertIntoGroups, if_neg hk]; exact List.mem_cons_of_mem _ hq, hr⟩

theorem mem_foldl_insertPrep_preserved (l : List DrugRec) :
    ∀ (groups : List (String × DrugGroup)) (r : DrugRec),
      (∃ p ∈ groups, r ∈ p.2.preps) →
      ∃ p ∈ l.foldl insertPrep groups, r ∈ p.2.preps := by
  induction l with
  | nil => intro groups r h; simpa using h
  | cons prep rest ih =>
    intro groups r h
    simp only [List.foldl_cons]
    exact ih _ r (mem_insertIntoGroups_preserved groups _ _ prep r h)

theorem mem_foldl_insertPrep_of_mem (l : List DrugRec) :
    ∀ (groups : List (String × DrugGroup)) (r : DrugRec), r ∈ l →
      ∃ p ∈ l.foldl insertPrep groups, r ∈ p.2.preps := by
  induction l with
  | nil => intro groups r h; cases h
  | cons prep rest ih =>
    intro groups r h
    simp only [List.foldl_cons]
    rcases List.mem_cons.mp h with rfl | h'
    · exact mem_foldl_insertPrep_preserved rest _ r (mem_insertIntoGroups_new groups _ _ r)
    · exact ih _ r h'

/-- Counterexample to claim C4: a record whose base and generic names are
both empty is not dropped by the grouper — it is grouped under the empty
normalized key, in a group whose base name is empty. -/
theorem c4_counterexample_both_empty_record_grouped :
    group_by_base [recBothEmpty] ≠ [] ∧
    ∃ g ∈ group_by_base [recBothEmpty], g.base_name = "" ∧ recBothEmpty ∈ g.preps := by
  have hmem : ∃ g ∈ group_by_base [recBothEmpty],
      g.base_name = "" ∧ recBothEmpty ∈ g.preps := by
    refine ⟨finalizeGroup (updateGroup (newGroup (baseOf recBothEmpty) recBothEmpty)
      recBothEmpty), ?_, ?_, ?_⟩
    · unfold group_by_base
      apply List.mem_mergeSort.mpr
      have hfold : [recBothEmpty].foldl insertPrep [] =
          [(normalize_name (baseOf recBothEmpty),
            updateGroup (newGroup (baseOf recBothEmpty) recBothEmpty) recBothEmpty)] := rfl
      rw [hfold]
      simp
    · rfl
    · show recBothEmpty ∈ (finalizeGroup _).preps
      simp [finalizeGroup, updateGroup]
  refine ⟨?_, hmem⟩
  obtain ⟨g, hg, _⟩ := hmem
  intro hempty
  rw [hempty] at hg
  cases hg

/-- Claim C4 as amended: no input record is ever dropped by the grouper;
every record of the input — a both-empty record included, grouped under
the empty key — appears in the preparations of some output group (records
with an empty base name but non-empty generic name are grouped under the
generic-name fallback key). -/
theorem c4_amended_no_record_dropped (preps : List DrugRec) (r : DrugRec)
    (h : r ∈ preps) :
    ∃ g ∈ group_by_base preps, r ∈ g.preps := by
  obtain ⟨p, hp, hr⟩ := mem_foldl_insertPrep_of_mem preps [] r h
  refine ⟨finalizeGroup p.2, ?_, hr⟩
  unfold group_by_base
  exact List.mem_mergeSort.mpr (List.mem_map_of_mem _ hp)

/-- Witness for the amended C4 at a concrete both-empty record. -/
theorem c4_amended_witness :
    ∃ g ∈ group_by_base [recBothEmpty, rIbuprofen], recBothEmpty ∈ g.preps :=
  c4_amended_no_record_dropped [recBothEmpty, rIbuprofen] recBothEmpty (by decide)

-- ---------------------------------------------------------------------------
-- Claim C8: grouped output is sorted by base_name
-- ---------------------------------------------------------------------------

theorem strLeB_iff (a b : String) : strLeB a b = true ↔ a ≤ b := by
  simp [strLeB]

/-- Claim C8: the groups returned by `find_drugs_in_text` are sorted by
`base_name` — every group's base name is at most that of every later
group. -/
theorem c8_groups_sorted_by_base_name (db : List DrugRec) (text : String) :
    (find_drugs_in_text db text).Pairwise
      (fun g1 g2 => g1.base_name ≤ g2.base_name) := by
  unfold find_drugs_in_text group_by_base
  refine List.Pairwise.imp ?_ (List.sorted_mergeSort ?_ ?_ _)
  · intro a b hab
    exact (strLeB_iff _ _).mp hab
  · intro a b c hab hbc
    exact (strLeB_iff _ _).mpr
      (le_trans ((strLeB_iff _ _).mp hab) ((strLeB_iff _ _).mp hbc))
  · intro a b
    rw [Bool.or_eq_true, strLeB_iff, strLeB_iff]
    exact le_total a.base_name b.base_name

-- ---------------------------------------------------------------------------
-- Claim C9: the resolver is a first-match scan of the store
-- ---------------------------------------------------------------------------

theorem findLoop_eq_find (key : String) (db : List DrugRec) :
    findLoop key db = db.find? (resolveMatches key) := by
  induction db with
  | nil => rfl
  | cons drug rest ih =>
    by_cases h1 : key = pyUpperS drug.generic_name
    · simp only [findLoop, if_pos h1]
      rw [List.find?_cons_of_pos _ (by simp [resolveMatches, h1])]
    · by_cases h2 : (drug.aliases.map pyUpperS).contains key = true
      · simp only [findLoop, if_neg h1, if_pos h2]
        rw [List.find?_cons_of_pos _ (by simp only [resolveMatches]; rw [h2]; simp)]
      · by_cases h3 : containsSub (pyUpperS drug.base_name).data key.data = true
        · simp only [findLoop, if_neg h1, if_neg h2, if_pos h3]
          rw [List.find?_cons_of_pos _ (by simp only [resolveMatches]; rw [h3]; simp)]
        · simp only [findLoop, if_neg h1, if_neg h2, if_neg h3]
          rw [List.find?_cons_of_neg _ ?_]
          · exact ih
          · intro hc
            simp only [resolveMatches, Bool.or_eq_true, beq_iff_eq] at hc
            rcases hc with (hc | hc) | hc
            · exact h1 hc
            · exact h2 hc
            · exact h3 hc

/-- Claim C9: for every non-empty input, `find_by_generic_name` returns
exactly the first record of the store (in store order) satisfying the
spec's matching criterion for the synonym-substituted search key, and
nothing when no record satisfies it. -/
theorem c9_resolver_first_match_scan (db : List DrugRec) (name : String)
    (h : name ≠ "") :
    find_by_generic_name db name = resolveSpec db name := by
  unfold find_by_generic_name resolveSpec
  rw [if_neg h]
  exact findLoop_eq_find _ db

/-- Witness for C9 at a concrete store and alias input. -/
theorem c9_resolver_witness :
    find_by_generic_name [rIbuprofen] "advil" = resolveSpec [rIbuprofen] "advil" :=
  c9_resolver_first_match_scan [rIbuprofen] "advil" (by decide)

-- ---------------------------------------------------------------------------
-- Claim C5: token-boundary semantics of the matcher
-- ---------------------------------------------------------------------------

theorem strEqCI_length : ∀ a b : List Char, strEqCI a b = true → a.length = b.length := by
  intro a
  induction a with
  | nil =>
    intro b hb
    cases b with
    | nil => rfl
    | cons y ys => simp [strEqCI] at hb
  | cons x xs ih =>
    intro b hb
    cases b with
    | nil => simp [strEqCI] at hb
    | cons y ys =>
      rw [strEqCI, Bool.and_eq_true] at hb
      simp [ih ys hb.2]

theorem getLast?_take_of_le (l : List Char) (i : Nat) (h1 : i ≠ 0)
    (h2 : i ≤ l.length) : (l.take i).getLast? = l.get? (i - 1) := by
  rw [List.getLast?_eq_get?, List.length_take, Nat.min_eq_left h2]
  exact List.get?_take (by omega)

theorem head?_drop_get? (l : List Char) (n : Nat) : (l.drop n).head? = l.get? n := by
  rw [List.head?_drop, ← List.get?_eq_getElem?]

/-- Claim C5: for every key of length at least two, the matcher matches a
text exactly when the key occurs (case-insensitively) at some position
whose neighbouring characters — the one just before the occurrence and
the one just after it, each when present — are not word characters.  In
particular a key never matches as a proper substring of a longer word,
and does match as a standalone token. -/
theorem c5_key_matches_iff_token_boundary (name text : String)
    (h : 2 ≤ name.length) :
    match_single_name_in_text text name = true ↔
      ∃ i, strEqCI ((text.data.drop i).take name.length) name.data = true ∧
        ((text.data.take i).getLast?).all (fun c => !isWordChar c) = true ∧
        ((text.data.drop (i + name.length)).head?).all (fun c => !isWordChar c) = true := by
  have hnd : name.length = name.data.length := rfl
  unfold match_single_name_in_text
  rw [if_neg (by omega)]
  unfold regexSearch occursAtCI boundaryOk
  rw [List.any_eq_true]
  constructor
  · rintro ⟨i, hmem, hcond⟩
    rw [Bool.and_eq_true] at hcond
    obtain ⟨hocc, hband⟩ := hcond
    rw [Bool.and_eq_true] at hband
    obtain ⟨hb, ha⟩ := hband
    have hlen : i + name.length ≤ text.data.length := by
      have hl := strEqCI_length _ _ hocc
      rw [List.length_take, List.length_drop] at hl
      rw [← hnd] at hl
      omega
    refine ⟨i, hocc, ?_, ?_⟩
    · rcases Nat.eq_zero_or_pos i with rfl | hi
      · simp
      · rw [getLast?_take_of_le text.data i (by omega) (by omega)]
        rw [Bool.or_eq_true] at hb
        rcases hb with hb0 | hb1
        · rw [beq_iff_eq] at hb0; omega
        · exact hb1
    · rw [head?_drop_get?]
      exact ha
  · rintro ⟨i, hocc, hb, ha⟩
    have hlen : i + name.length ≤ text.data.length := by
      have hl := strEqCI_length _ _ hocc
      rw [List.length_take, List.length_drop] at hl
      rw [← hnd] at hl
      omega
    refine ⟨i, List.mem_range.mpr (by omega), ?_⟩
    rw [Bool.and_eq_true]
    refine ⟨hocc, ?_⟩
    rw [Bool.and_eq_true]
    constructor
    · rcases Nat.eq_zero_or_pos i with rfl | hi
      · simp
      · rw [Bool.or_eq_true]
        right
        rw [getLast?_take_of_le text.data i (by omega) (by omega)] at hb
        exact hb
    · rw [head?_drop_get?] at ha
      exact ha

/-- Witness for C5: the key tan, applied through the theorem, matches as a
standalone token of a longer text. -/
theorem c5_token_boundary_witness :
    match_single_name_in_text "x tan y" "tan" = true :=
  (c5_key_matches_iff_token_boundary "tan" "x tan y" (by decide)).mpr
    ⟨2, by decide, by decide, by decide⟩

-- ---------------------------------------------------------------------------
-- Claim C10: idempotence of the normalizer
-- ---------------------------------------------------------------------------

theorem dropWhile_self (p : Char → Bool) (l : List Char) :
    (l.dropWhile p).dropWhile p = l.dropWhile p := by
  induction l with
  | nil => rfl
  | cons a t ih =>
    rw [List.dropWhile_cons]
    by_cases h : p a = true
    · rw [if_pos h]; exact ih
    · rw [if_neg h, List.dropWhile_cons, if_neg h]

theorem dropWhile_eq_cons_head (p : Char → Bool) (l : List Char) (a : Char)
    (t : List Char) (h : l.dropWhile p = a :: t) : p a = false := by
  induction l with
  | nil => simp at h
  | cons b l' ih =>
    rw [List.dropWhile_cons] at h
    by_cases hb : p b = true
    · rw [if_pos hb] at h; exact ih h
    · rw [if_neg hb] at h
      injection h with h1 _
      rw [← h1]
      exact Bool.eq_false_iff.mpr hb

theorem dropWhile_cons_of_neg (p : Char → Bool) (a : Char) (t : List Char)
    (h : p a = false) : (a :: t).dropWhile p = a :: t := by
  rw [List.dropWhile_cons, h]
  simp

theorem dropWhile_append_single (p : Char → Bool) (a : Char) (h : p a = false) :
    ∀ xs : List Char, (xs ++ [a]).dropWhile p = xs.dropWhile p ++ [a] := by
  intro xs
  induction xs with
  | nil => simp [List.dropWhile_cons, h]
  | cons x t ih =>
    rw [List.cons_append, List.dropWhile_cons, List.dropWhile_cons]
    by_cases hx : p x = true
    · rw [if_pos hx, if_pos hx]; exact ih
    · rw [if_neg hx, if_neg hx, List.cons_append]

theorem pyStrip_idem (l : List Char) : pyStrip (pyStrip l) = pyStrip l := by
  unfold pyStrip
  cases hd : l.dropWhile isSpaceChar with
  | nil => simp
  | cons a t =>
    have ha : isSpaceChar a = false := dropWhile_eq_cons_head _ _ _ _ hd
    have hres : (((a :: t).reverse).dropWhile isSpaceChar).reverse =
        a :: ((t.reverse.dropWhile isSpaceChar)).reverse := by
      rw [List.reverse_cons, dropWhile_append_single _ _ ha, List.reverse_append]
      simp
    rw [hres]
    rw [dropWhile_cons_of_neg _ _ _ ha, List.reverse_cons, List.reverse_reverse,
      dropWhile_append_single _ _ ha, dropWhile_self, List.reverse_append]
    simp

theorem pyStrip_map_pyToLower (l : List Char) :
    pyStrip (pyLower l) = pyLower (pyStrip l) := by
  unfold pyStrip pyLower
  have hcomp : isSpaceChar ∘ pyToLower = isSpaceChar := funext isSpaceChar_pyToLower
  rw [List.dropWhile_map, hcomp, ← List.map_reverse, List.dropWhile_map, hcomp,
    ← List.map_reverse]

theorem pyLower_idem_list (l : List Char) : pyLower (pyLower l) = pyLower l := by
  unfold pyLower
  rw [List.map_map]
  exact List.map_congr_left (fun a _ => pyToLower_idem a)

theorem mappingFind_mem_values (n v : String) (h : mappingFind n = some v) :
    v = "vitamin c" ∨ v = "ibuprofen" ∨ v = "acetaminophen" ∨ v = "aspirin" := by
  unfold mappingFind at h
  split_ifs at h <;> simp_all

/-- Claim C10: the normalizer is idempotent — normalizing an
already-normalized name changes nothing, so index keys are fixed points
of `_normalize_name`. -/
theorem c10_normalize_idempotent (s : String) :
    normalize_name (normalize_name s) = normalize_name s := by
  by_cases hs : s = ""
  · subst hs; rfl
  · cases hm : mappingFind (pyLowerS (pyStripS s)) with
    | some v =>
      have hstep : normalize_name s = v := by
        unfold normalize_name; rw [if_neg hs, hm, Option.getD_some]
      rw [hstep]
      have hv := mappingFind_mem_values _ _ hm
      rcases hv with rfl | rfl | rfl | rfl <;> decide
    | none =>
      have hstep : normalize_name s = pyLowerS (pyStripS s) := by
        unfold normalize_name; rw [if_neg hs, hm, Option.getD_none]
      rw [hstep]
      by_cases hne : pyLowerS (pyStripS s) = ""
      · rw [hne]; rfl
      · have hfix : pyLowerS (pyStripS (pyLowerS (pyStripS s))) = pyLowerS (pyStripS s) := by
          show (⟨pyLower (pyStrip (pyLower (pyStrip s.data)))⟩ : String) =
            ⟨pyLower (pyStrip s.data)⟩
          rw [pyStrip_map_pyToLower, pyStrip_idem, pyLower_idem_list]
        unfold normalize_name
        rw [if_neg hne, hfix, hm, Option.getD_none]
